import Mathlib

/-!
Shallow embedding of the spectral cycle-analysis core of
`src/app/api/cycle-analysis/route.ts`: trend estimation (`computeTrendSlope`),
direct DFT decomposition (`computeCycleComponents`), dominant-cycle selection
(`dominantCycles`), amplitude-weighted aggregation (`weightedPeriod`) and
narrative summarization (`summarizeCycles`).  JavaScript numbers are modelled
as real numbers; `Number.isFinite` is identically true on `ℝ` and
`Number.POSITIVE_INFINITY` has no counterpart (the one place it appears is
shown to be unreachable).
-/

noncomputable section

/-- `CandlePoint` from the source: `{ timestamp: number; close: number }`. -/
structure CandlePoint where
  timestamp : ℝ
  close : ℝ

instance : Inhabited CandlePoint := ⟨⟨0, 0⟩⟩

/-- `CycleComponent` from the source:
`{ index; frequency; amplitude; phase; periodSamples }`. -/
structure CycleComponent where
  index : ℕ
  frequency : ℝ
  amplitude : ℝ
  phase : ℝ
  periodSamples : ℝ

/-- The record built inline in the `dominantCycles` pipeline of the source:
a `CycleComponent` plus `periodDays`. -/
structure DominantCycle where
  index : ℕ
  amplitude : ℝ
  phase : ℝ
  frequency : ℝ
  periodSamples : ℝ
  periodDays : ℝ

/-- `mean` from the source: `0` on the empty list, otherwise the sum (the
`reduce` accumulator) divided by the length. -/
def mean (values : List ℝ) : ℝ :=
  if values.length = 0 then 0 else values.sum / values.length

/-- `computeTrendSlope` from the source: ordinary least squares of `close`
against elapsed days since the first sample.  Returns `0` when there are
fewer than two points or when the denominator is exactly `0`. -/
def computeTrendSlope (points : List CandlePoint) : ℝ :=
  let n := points.length
  if n < 2 then 0 else
    let first := points.headI.timestamp
    let xs := points.map fun point => (point.timestamp - first) / 86400
    let ys := points.map fun point => point.close
    let xMean := mean xs
    let yMean := mean ys
    let numerator := ((xs.zip ys).map fun q => (q.1 - xMean) * (q.2 - yMean)).sum
    let denominator := (xs.map fun x => (x - xMean) ^ 2).sum
    if denominator = 0 then 0 else numerator / denominator

/-- The mean-centered series `centered` of the source. -/
def centered (values : List ℝ) : List ℝ :=
  values.map fun value => value - mean values

/-- The loop angle `(-2 * Math.PI * k * t) / n` of the source. -/
def dftAngle (n k t : ℕ) : ℝ :=
  (-2 * Real.pi * k * t) / n

/-- The accumulated `real` sum of the source's inner loop for harmonic `k`. -/
def dftReal (values : List ℝ) (k : ℕ) : ℝ :=
  ∑ t ∈ Finset.range values.length,
    (centered values).getD t 0 * Real.cos (dftAngle values.length k t)

/-- The accumulated `imag` sum of the source's inner loop for harmonic `k`. -/
def dftImag (values : List ℝ) (k : ℕ) : ℝ :=
  ∑ t ∈ Finset.range values.length,
    (centered values).getD t 0 * Real.sin (dftAngle values.length k t)

/-- `Math.atan2(y, x)`: the argument of the point `(x, y)`, in `(-π, π]`,
with `atan2 0 0 = 0`, exactly as `Complex.arg`. -/
def atan2 (y x : ℝ) : ℝ :=
  Complex.arg ((x : ℂ) + (y : ℂ) * Complex.I)

/-- One iteration of the source's harmonic loop: the `CycleComponent` pushed
for harmonic `k`.  The source sets `periodSamples` to
`Number.POSITIVE_INFINITY` when `frequency === 0`; `ℝ` has no infinity, and
that branch is unreachable (the loop starts at `k = 1`, see the
`periodSamples` theorem), so the placeholder value `0` is never observable. -/
def mkComponent (values : List ℝ) (k : ℕ) : CycleComponent :=
  let n := values.length
  let re := dftReal values k
  let im := dftImag values k
  let magnitude := Real.sqrt (re ^ 2 + im ^ 2)
  let amplitude := 2 * magnitude / n
  let phase := atan2 im re
  let frequency := (k : ℝ) / n
  let periodSamples := if frequency = 0 then 0 else 1 / frequency
  ⟨k, frequency, amplitude, phase, periodSamples⟩

/-- The comparator order of the source's `components.sort((a, b) =>
b.amplitude - a.amplitude)`: `a` may stay before `b` exactly when the
comparator is `≤ 0`, i.e. `b.amplitude ≤ a.amplitude`. -/
def ampGe (a b : CycleComponent) : Prop :=
  b.amplitude ≤ a.amplitude

instance : DecidableRel ampGe := fun a b => Real.decidableLE b.amplitude a.amplitude

/-- The component list in loop order, before the final sort: harmonics
`k = 1 … floor(n/2)`. -/
def computeCycleComponentsRaw (values : List ℝ) : List CycleComponent :=
  (List.range (values.length / 2)).map fun i => mkComponent values (i + 1)

/-- `computeCycleComponents` from the source.  JavaScript's `Array.sort` is a
stable sort, and with the consistent comparator `b.amplitude - a.amplitude`
its result is the unique stable amplitude-descending reordering, which is
what `List.insertionSort` with `ampGe` computes. -/
def computeCycleComponents (values : List ℝ) : List CycleComponent :=
  List.insertionSort ampGe (computeCycleComponentsRaw values)

/-- `Number.isFinite` on the embedding: every real number is finite (no NaN
and no infinities exist in `ℝ`), so the check is identically `true`. -/
def numberIsFinite (_x : ℝ) : Bool :=
  true

/-- The `dominantCycles` pipeline of the source: take the first 6 sorted
components, attach `periodDays = periodSamples * samplePeriodDays`, keep
those with finite `periodDays` and positive amplitude, keep the first 4. -/
def dominantCycles (components : List CycleComponent) (samplePeriodDays : ℝ) :
    List DominantCycle :=
  ((((components.take 6).map fun c =>
        DominantCycle.mk c.index c.amplitude c.phase c.frequency c.periodSamples
          (c.periodSamples * samplePeriodDays)).filter fun d =>
      numberIsFinite d.periodDays && decide (0 < d.amplitude)).take 4)

/-- The `weightedPeriod` ternary of the source: `null` when the list is
empty, otherwise the amplitude-weighted average of `periodDays` (the two
`reduce` folds are the two sums). -/
def weightedPeriod (dominant : List DominantCycle) : Option ℝ :=
  if 0 < dominant.length then
    some (((dominant.map fun c => c.periodDays * c.amplitude).sum) /
      ((dominant.map fun c => c.amplitude).sum))
  else none

/-- `Number.prototype.toFixed(digits)` on the embedding: round
`x * 10 ^ digits` to the nearest integer and print it with `digits` digits
after the decimal point. -/
def toFixed (digits : ℕ) (x : ℝ) : String :=
  let scaled : ℤ := round (x * (10 : ℝ) ^ digits)
  let sign := if scaled < 0 then "-" else ""
  let a := scaled.natAbs
  let ip := toString (a / 10 ^ digits)
  let fpDigits := toString (a % 10 ^ digits)
  let fp := String.mk (List.replicate (digits - fpDigits.length) '0') ++ fpDigits
  if digits = 0 then sign ++ ip else sign ++ ip ++ "." ++ fp

/-- `summarizeCycles` from the source: a fixed insufficient-data message
naming the symbol on the empty list, otherwise a narrative built from the
first cycle (period to one decimal, amplitude to two) and, when present, the
second cycle (period to one decimal). -/
def summarizeCycles (symbol : String) (dominant : List DominantCycle)
    (range : String) : String :=
  match dominant with
  | [] => symbol ++ " এর জন্য বাছাই করা সময় সীমায় পর্যাপ্ত তথ্য পাওয়া যায়নি।"
  | primary :: rest =>
    let primaryText := "মূল চক্র " ++ toFixed 1 primary.periodDays ++
      " দিনের কাছাকাছি, যার শক্তি " ++ toFixed 2 primary.amplitude ++ "।"
    let secondaryText :=
      match rest with
      | secondary :: _ => "দ্বিতীয় চক্র হিসেবে " ++ toFixed 1 secondary.periodDays ++
          " দিনের একটি পুনরাবৃত্তি পাওয়া গেছে।"
      | [] => "দ্বিতীয় শক্তিশালী চক্র তেমন প্রকট নয়।"
    symbol ++ " এর " ++ range ++ " ডেটায় " ++ primaryText ++ " " ++
      secondaryText ++ " এই তথ্যের ভিত্তিতে আপনার এন্ট্রি ও এক্সিট পরিকল্পনা করুন।"

/-- The `analytics` object assembled by the route handler from the core
computations. -/
structure AnalysisOutput where
  trendSlope : ℝ
  dominantCycles : List DominantCycle
  averageCycleLengthDays : Option ℝ
  summary : String

/-- The core analysis pipeline of the route handler (its pure fragment):
decomposition over the close values, selection, aggregation, trend slope and
summary, assembled into one output record. -/
def runAnalysis (closes : List CandlePoint) (samplePeriodDays : ℝ)
    (symbol range : String) : AnalysisOutput :=
  let priceValues := closes.map fun point => point.close
  let components := computeCycleComponents priceValues
  let dc := dominantCycles components samplePeriodDays
  { trendSlope := computeTrendSlope closes
    dominantCycles := dc
    averageCycleLengthDays := weightedPeriod dc
    summary := summarizeCycles symbol dc range }

/-- The ordinary-least-squares x coordinate of sample `i`: elapsed days since
the first sample. -/
def xCoord (points : List CandlePoint) (i : ℕ) : ℝ :=
  ((points.getD i default).timestamp - (points.getD 0 default).timestamp) / 86400

/-- The ordinary-least-squares y coordinate of sample `i`: its close value. -/
def yCoord (points : List CandlePoint) (i : ℕ) : ℝ :=
  (points.getD i default).close

/-- The mean `x̄` of the elapsed-day coordinates. -/
def xBar (points : List CandlePoint) : ℝ :=
  (∑ i ∈ Finset.range points.length, xCoord points i) / points.length

/-- The mean `ȳ` of the close values. -/
def yBar (points : List CandlePoint) : ℝ :=
  (∑ i ∈ Finset.range points.length, yCoord points i) / points.length

/-- The OLS numerator `Σ (x_i − x̄) (y_i − ȳ)`. -/
def olsNumerator (points : List CandlePoint) : ℝ :=
  ∑ i ∈ Finset.range points.length,
    (xCoord points i - xBar points) * (yCoord points i - yBar points)

/-- The OLS denominator `Σ (x_i − x̄)²`. -/
def olsDenominator (points : List CandlePoint) : ℝ :=
  ∑ i ∈ Finset.range points.length, (xCoord points i - xBar points) ^ 2

theorem sum_map_eq_sum_getD (f : CandlePoint → ℝ) :
    ∀ l : List CandlePoint,
      (l.map f).sum = ∑ i ∈ Finset.range l.length, f (l.getD i default)
  | [] => by simp
  | a :: l => by
    rw [List.map_cons, List.sum_cons, sum_map_eq_sum_getD f l, List.length_cons,
      Finset.sum_range_succ']
    simp [add_comm]

theorem headI_eq_getD (l : List CandlePoint) : l.headI = l.getD 0 default := by
  cases l <;> rfl

theorem computeTrendSlope_eq (points : List CandlePoint)
    (hn : 2 ≤ points.length) :
    computeTrendSlope points =
      if olsDenominator points = 0 then 0
      else olsNumerator points / olsDenominator points := by
  have hne : points.length ≠ 0 := by omega
  have hlt : ¬ points.length < 2 := by omega
  have hxsum :
      (points.map fun point =>
          (point.timestamp - (points.getD 0 default).timestamp) / 86400).sum =
        ∑ i ∈ Finset.range points.length, xCoord points i := by
    rw [sum_map_eq_sum_getD]
    rfl
  have hysum :
      (points.map fun point => point.close).sum =
        ∑ i ∈ Finset.range points.length, yCoord points i := by
    rw [sum_map_eq_sum_getD]
    rfl
  have hmeanx :
      mean (points.map fun point =>
          (point.timestamp - (points.getD 0 default).timestamp) / 86400) =
        xBar points := by
    rw [mean, List.length_map, if_neg hne, hxsum, xBar]
  have hmeany : mean (points.map fun point => point.close) = yBar points := by
    rw [mean, List.length_map, if_neg hne, hysum, yBar]
  dsimp only [computeTrendSlope]
  rw [if_neg hlt, headI_eq_getD, hmeanx, hmeany, List.zip_map', List.map_map,
    List.map_map]
  rw [sum_map_eq_sum_getD
    ((fun q : ℝ × ℝ => (q.1 - xBar points) * (q.2 - yBar points)) ∘
      fun point => ((point.timestamp - (points.getD 0 default).timestamp) / 86400,
        point.close))]
  rw [sum_map_eq_sum_getD
    ((fun x => (x - xBar points) ^ 2) ∘
      fun point => (point.timestamp - (points.getD 0 default).timestamp) / 86400)]
  rfl

/-- C4: `computeTrendSlope` is total (it is a Lean function); it returns `0`
when there are fewer than two samples or when the OLS denominator
`Σ (x_i − x̄)²` is exactly `0`, and otherwise returns the ordinary
least-squares slope `Σ (x_i − x̄)(y_i − ȳ) / Σ (x_i − x̄)²` of close value
against elapsed days since the first sample. -/
theorem computeTrendSlope_spec (points : List CandlePoint) :
    (points.length < 2 ∨ olsDenominator points = 0 → computeTrendSlope points = 0) ∧
    (2 ≤ points.length → olsDenominator points ≠ 0 →
      computeTrendSlope points = olsNumerator points / olsDenominator points) := by
  constructor
  · rintro (hlt | hden)
    · dsimp only [computeTrendSlope]
      rw [if_pos hlt]
    · by_cases hn : 2 ≤ points.length
      · rw [computeTrendSlope_eq points hn, if_pos hden]
      · dsimp only [computeTrendSlope]
        rw [if_pos (by omega)]
  · intro hn hden
    rw [computeTrendSlope_eq points hn, if_neg hden]

/-- Witness for C4 at a concrete two-point input with one elapsed day and a
unit rise: the hypotheses hold and the slope equals the OLS quotient. -/
theorem computeTrendSlope_spec_witness :
    2 ≤ ([⟨0, 0⟩, ⟨86400, 1⟩] : List CandlePoint).length ∧
    olsDenominator [⟨0, 0⟩, ⟨86400, 1⟩] ≠ 0 ∧
    computeTrendSlope [⟨0, 0⟩, ⟨86400, 1⟩] =
      olsNumerator [⟨0, 0⟩, ⟨86400, 1⟩] / olsDenominator [⟨0, 0⟩, ⟨86400, 1⟩] := by
  have hden : olsDenominator ([⟨0, 0⟩, ⟨86400, 1⟩] : List CandlePoint) ≠ 0 := by
    norm_num [olsDenominator, xCoord, xBar, Finset.sum_range_succ,
      List.getD_cons_zero, List.getD_cons_succ]
  exact ⟨by norm_num, hden, (computeTrendSlope_spec _).2 (by norm_num) hden⟩

theorem getD_map_shift (c : ℝ) (points : List CandlePoint) :
    ∀ i, i < points.length →
      (points.map fun point => CandlePoint.mk (point.timestamp + c) point.close).getD
          i default =
        CandlePoint.mk ((points.getD i default).timestamp + c)
          (points.getD i default).close := by
  induction points with
  | nil => intro i hi; exact absurd hi (by simp)
  | cons a l ih =>
    intro i hi
    cases i with
    | zero => rfl
    | succ j => simpa using ih j (by simpa using hi)

theorem xCoord_map_shift (c : ℝ) (points : List CandlePoint) (i : ℕ)
    (hi : i < points.length) (h0 : 0 < points.length) :
    xCoord (points.map fun point => CandlePoint.mk (point.timestamp + c) point.close) i =
      xCoord points i := by
  unfold xCoord
  rw [getD_map_shift c points i hi, getD_map_shift c points 0 h0]
  ring_nf

theorem yCoord_map_shift (c : ℝ) (points : List CandlePoint) (i : ℕ)
    (hi : i < points.length) :
    yCoord (points.map fun point => CandlePoint.mk (point.timestamp + c) point.close) i =
      yCoord points i := by
  unfold yCoord
  rw [getD_map_shift c points i hi]

theorem xBar_map_shift (c : ℝ) (points : List CandlePoint)
    (h0 : 0 < points.length) :
    xBar (points.map fun point => CandlePoint.mk (point.timestamp + c) point.close) =
      xBar points := by
  unfold xBar
  rw [List.length_map]
  congr 1
  exact Finset.sum_congr rfl fun i hi =>
    xCoord_map_shift c points i (Finset.mem_range.mp hi) h0

theorem yBar_map_shift (c : ℝ) (points : List CandlePoint) :
    yBar (points.map fun point => CandlePoint.mk (point.timestamp + c) point.close) =
      yBar points := by
  unfold yBar
  rw [List.length_map]
  congr 1
  exact Finset.sum_congr rfl fun i hi =>
    yCoord_map_shift c points i (Finset.mem_range.mp hi)

theorem olsNumerator_map_shift (c : ℝ) (points : List CandlePoint)
    (h0 : 0 < points.length) :
    olsNumerator (points.map fun point => CandlePoint.mk (point.timestamp + c) point.close) =
      olsNumerator points := by
  unfold olsNumerator
  rw [List.length_map, xBar_map_shift c points h0, yBar_map_shift c points]
  exact Finset.sum_congr rfl fun i hi => by
    rw [xCoord_map_shift c points i (Finset.mem_range.mp hi) h0,
      yCoord_map_shift c points i (Finset.mem_range.mp hi)]

theorem olsDenominator_map_shift (c : ℝ) (points : List CandlePoint)
    (h0 : 0 < points.length) :
    olsDenominator (points.map fun point => CandlePoint.mk (point.timestamp + c) point.close) =
      olsDenominator points := by
  unfold olsDenominator
  rw [List.length_map, xBar_map_shift c points h0]
  exact Finset.sum_congr rfl fun i hi => by
    rw [xCoord_map_shift c points i (Finset.mem_range.mp hi) h0]

/-- C10: the trend estimator is invariant under time translation — shifting
every sample's timestamp by a constant `c`, leaving close values unchanged,
yields exactly the same slope, because only elapsed time since the first
sample enters the computation of `computeTrendSlope`. -/
theorem computeTrendSlope_time_translation (points : List CandlePoint) (c : ℝ) :
    computeTrendSlope (points.map fun point => ⟨point.timestamp + c, point.close⟩) =
      computeTrendSlope points := by
  by_cases hn : 2 ≤ points.length
  · have hn' : 2 ≤ (points.map fun point =>
        CandlePoint.mk (point.timestamp + c) point.close).length := by
      rw [List.length_map]; exact hn
    rw [computeTrendSlope_eq _ hn', computeTrendSlope_eq _ hn,
      olsDenominator_map_shift c points (by omega),
      olsNumerator_map_shift c points (by omega)]
  · dsimp only [computeTrendSlope]
    rw [List.length_map, if_pos (by omega), if_pos (by omega)]

theorem mkComponent_index (values : List ℝ) (k : ℕ) :
    (mkComponent values k).index = k := rfl

theorem mkComponent_frequency (values : List ℝ) (k : ℕ) :
    (mkComponent values k).frequency = (k : ℝ) / values.length := rfl

theorem mkComponent_amplitude (values : List ℝ) (k : ℕ) :
    (mkComponent values k).amplitude =
      2 * Real.sqrt (dftReal values k ^ 2 + dftImag values k ^ 2) / values.length := rfl

theorem mkComponent_phase (values : List ℝ) (k : ℕ) :
    (mkComponent values k).phase = atan2 (dftImag values k) (dftReal values k) := rfl

theorem mkComponent_periodSamples (values : List ℝ) (k : ℕ) :
    (mkComponent values k).periodSamples =
      if ((k : ℝ) / values.length) = 0 then 0 else 1 / ((k : ℝ) / values.length) := rfl

theorem computeCycleComponentsRaw_length (values : List ℝ) :
    (computeCycleComponentsRaw values).length = values.length / 2 := by
  rw [computeCycleComponentsRaw, List.length_map, List.length_range]

theorem mem_computeCycleComponentsRaw {values : List ℝ} {c : CycleComponent} :
    c ∈ computeCycleComponentsRaw values ↔
      ∃ i, i < values.length / 2 ∧ c = mkComponent values (i + 1) := by
  rw [computeCycleComponentsRaw, List.mem_map]
  constructor
  · rintro ⟨i, hi, rfl⟩
    exact ⟨i, List.mem_range.mp hi, rfl⟩
  · rintro ⟨i, hi, rfl⟩
    exact ⟨i, List.mem_range.mpr hi, rfl⟩

theorem mem_computeCycleComponents {values : List ℝ} {c : CycleComponent} :
    c ∈ computeCycleComponents values ↔ c ∈ computeCycleComponentsRaw values := by
  rw [computeCycleComponents]
  exact List.mem_insertionSort ampGe

/-- The pairwise relation the sorted component list satisfies: amplitudes
descend, and exactly equal amplitudes are ordered by ascending harmonic
index (the stability of the sort). -/
def ampLex (a b : CycleComponent) : Prop :=
  b.amplitude ≤ a.amplitude ∧ (a.amplitude = b.amplitude → a.index < b.index)

theorem pairwise_orderedInsert_ampLex (x : CycleComponent) :
    ∀ l : List CycleComponent, (∀ y ∈ l, x.index < y.index) →
      l.Pairwise ampLex → (l.orderedInsert ampGe x).Pairwise ampLex
  | [], _, _ => by simp [List.orderedInsert, ampLex]
  | y :: ys, hidx, hl => by
    simp only [List.orderedInsert]
    by_cases h : ampGe x y
    · rw [if_pos h]
      refine List.Pairwise.cons ?_ hl
      intro w hw
      have hwamp : w.amplitude ≤ x.amplitude := by
        rcases List.mem_cons.mp hw with rfl | hw'
        · exact h
        · exact le_trans ((List.pairwise_cons.mp hl).1 w hw').1 h
      exact ⟨hwamp, fun _ => hidx w hw⟩
    · rw [if_neg h]
      have hyx : x.amplitude < y.amplitude := not_le.mp h
      refine List.Pairwise.cons ?_
        (pairwise_orderedInsert_ampLex x ys
          (fun z hz => hidx z (List.mem_cons_of_mem y hz))
          (List.pairwise_cons.mp hl).2)
      intro w hw
      rcases (List.mem_orderedInsert ampGe).mp hw with rfl | hw'
      · exact ⟨hyx.le, fun he => absurd he.symm (ne_of_lt hyx)⟩
      · exact (List.pairwise_cons.mp hl).1 w hw'

theorem pairwise_insertionSort_ampLex :
    ∀ l : List CycleComponent, (l.Pairwise fun a b => a.index < b.index) →
      (List.insertionSort ampGe l).Pairwise ampLex
  | [], _ => List.Pairwise.nil
  | a :: l, h => by
    rw [List.insertionSort]
    exact pairwise_orderedInsert_ampLex a (List.insertionSort ampGe l)
      (fun y hy => (List.pairwise_cons.mp h).1 y ((List.mem_insertionSort ampGe).mp hy))
      (pairwise_insertionSort_ampLex l (List.pairwise_cons.mp h).2)

theorem computeCycleComponentsRaw_pairwise_index (values : List ℝ) :
    (computeCycleComponentsRaw values).Pairwise fun a b => a.index < b.index := by
  rw [computeCycleComponentsRaw, List.pairwise_map]
  exact (List.pairwise_lt_range _).imp fun h => Nat.succ_lt_succ h

/-- C5: the component list returned by `computeCycleComponents` is sorted by
amplitude descending, and components with exactly equal amplitudes appear in
ascending harmonic-index order (`ampLex`), because the source sorts the
index-ordered loop output with a stable sort under the comparator
`b.amplitude - a.amplitude`. -/
theorem computeCycleComponents_sorted (values : List ℝ) :
    (computeCycleComponents values).Pairwise ampLex :=
  pairwise_insertionSort_ampLex _ (computeCycleComponentsRaw_pairwise_index values)

/-- The per-decomposition properties claimed for the component list of an
n-sample series: `floor (n / 2)` entries, one per harmonic `k = 1 … n / 2`;
amplitude `2·√(re² + im²) / n ≥ 0` over the mean-centered DFT sums; phase
`atan2 im re`; frequency `k / n`, strictly increasing with harmonic index. -/
def spectralSpec (values : List ℝ) : Prop :=
  (computeCycleComponents values).length = values.length / 2 ∧
  ((computeCycleComponents values).map CycleComponent.index).Perm
    ((List.range (values.length / 2)).map fun i => i + 1) ∧
  (∀ comp ∈ computeCycleComponents values,
    comp.amplitude =
      2 * Real.sqrt (dftReal values comp.index ^ 2 + dftImag values comp.index ^ 2) /
        values.length ∧
    0 ≤ comp.amplitude ∧
    comp.phase = atan2 (dftImag values comp.index) (dftReal values comp.index) ∧
    comp.frequency = (comp.index : ℝ) / values.length) ∧
  (∀ c1 ∈ computeCycleComponents values, ∀ c2 ∈ computeCycleComponents values,
    c1.index < c2.index → c1.frequency < c2.frequency)

/-- C1: for every input series of length `n ≥ 1`, the spectral decomposition
satisfies `spectralSpec`: exactly `floor (n / 2)` components, one per
harmonic `k = 1 … floor (n / 2)`, each with the direct-DFT amplitude
`2·√(re² + im²) / n ≥ 0`, phase `atan2 im re`, and frequency `k / n`
strictly increasing with harmonic index. -/
theorem computeCycleComponents_spec (values : List ℝ)
    (hn : 1 ≤ values.length) : spectralSpec values := by
  have hnR : (0 : ℝ) < values.length := by exact_mod_cast hn
  refine ⟨?_, ?_, ?_, ?_⟩
  · rw [computeCycleComponents, List.length_insertionSort,
      computeCycleComponentsRaw_length]
  · have h1 : ((computeCycleComponents values).map CycleComponent.index).Perm
        ((computeCycleComponentsRaw values).map CycleComponent.index) :=
      (List.perm_insertionSort ampGe (computeCycleComponentsRaw values)).map _
    have h2 : (computeCycleComponentsRaw values).map CycleComponent.index =
        (List.range (values.length / 2)).map fun i => i + 1 := by
      rw [computeCycleComponentsRaw, List.map_map]
      rfl
    exact h2 ▸ h1
  · intro comp hc
    obtain ⟨i, hi, rfl⟩ := mem_computeCycleComponentsRaw.mp
      (mem_computeCycleComponents.mp hc)
    refine ⟨rfl, ?_, rfl, rfl⟩
    rw [mkComponent_amplitude]
    positivity
  · intro c1 h1 c2 h2 hlt
    obtain ⟨i, hi, rfl⟩ := mem_computeCycleComponentsRaw.mp
      (mem_computeCycleComponents.mp h1)
    obtain ⟨j, hj, rfl⟩ := mem_computeCycleComponentsRaw.mp
      (mem_computeCycleComponents.mp h2)
    rw [mkComponent_index, mkComponent_index] at hlt
    rw [mkComponent_frequency, mkComponent_frequency]
    gcongr

/-- Witness for C1 at the concrete two-sample series `[0, 1]`. -/
theorem computeCycleComponents_spec_witness :
    1 ≤ ([(0 : ℝ), 1] : List ℝ).length ∧ spectralSpec [(0 : ℝ), 1] :=
  ⟨by norm_num, computeCycleComponents_spec _ (by norm_num)⟩

/-- C7: every component produced by the decomposition has nonzero frequency
— the defensive `frequency === 0` branch of the source (which would return
an infinite period) is never taken, since the harmonic loop starts at
`k = 1` — and its `periodSamples` equals `1 / frequency = n / k`, a finite
real number. -/
theorem computeCycleComponents_periodSamples (values : List ℝ) :
    ∀ comp ∈ computeCycleComponents values,
      comp.frequency ≠ 0 ∧ comp.periodSamples = 1 / comp.frequency ∧
      comp.periodSamples = (values.length : ℝ) / comp.index := by
  intro comp hc
  obtain ⟨i, hi, rfl⟩ := mem_computeCycleComponentsRaw.mp
    (mem_computeCycleComponents.mp hc)
  have hn : 2 ≤ values.length := by omega
  have hnR : (0 : ℝ) < values.length := by
    exact_mod_cast Nat.lt_of_lt_of_le Nat.zero_lt_two hn
  have hkR : (0 : ℝ) < ((i + 1 : ℕ) : ℝ) := by exact_mod_cast Nat.succ_pos i
  have hfne : ((i + 1 : ℕ) : ℝ) / values.length ≠ 0 := (div_pos hkR hnR).ne'
  refine ⟨?_, ?_, ?_⟩
  · rw [mkComponent_frequency]
    exact hfne
  · rw [mkComponent_periodSamples, mkComponent_frequency, if_neg hfne]
  · rw [mkComponent_periodSamples, mkComponent_index, if_neg hfne, one_div_div]

/-- Witness for C7: the single component of the two-sample series `[0, 1]`
is in the decomposition and satisfies the conclusion. -/
theorem computeCycleComponents_periodSamples_witness :
    mkComponent [(0 : ℝ), 1] 1 ∈ computeCycleComponents [(0 : ℝ), 1] ∧
    ((mkComponent [(0 : ℝ), 1] 1).frequency ≠ 0 ∧
      (mkComponent [(0 : ℝ), 1] 1).periodSamples =
        1 / (mkComponent [(0 : ℝ), 1] 1).frequency ∧
      (mkComponent [(0 : ℝ), 1] 1).periodSamples =
        (([(0 : ℝ), 1] : List ℝ).length : ℝ) / (mkComponent [(0 : ℝ), 1] 1).index) := by
  have hm : mkComponent [(0 : ℝ), 1] 1 ∈ computeCycleComponents [(0 : ℝ), 1] :=
    mem_computeCycleComponents.mpr
      (mem_computeCycleComponentsRaw.mpr ⟨0, by norm_num, rfl⟩)
  exact ⟨hm, computeCycleComponents_periodSamples _ _ hm⟩

theorem mem_dominantCycles {components : List CycleComponent} {s : ℝ}
    {d : DominantCycle} (hd : d ∈ dominantCycles components s) :
    ∃ c ∈ components.take 6,
      d = DominantCycle.mk c.index c.amplitude c.phase c.frequency c.periodSamples
        (c.periodSamples * s) ∧ 0 < d.amplitude := by
  have h1 := List.mem_of_mem_take hd
  obtain ⟨hmap, hpred⟩ := List.mem_filter.mp h1
  obtain ⟨c, hc, rfl⟩ := List.mem_map.mp hmap
  refine ⟨c, hc, rfl, ?_⟩
  exact of_decide_eq_true ((Bool.and_eq_true _ _).mp hpred).2

/-- What the selector provably guarantees for every amplitude-sorted input
and every spacing: at most 4 entries, still amplitude-descending, every
entry with positive amplitude, finite `periodDays` (identically true on
`ℝ`) equal to `periodSamples × spacing` — positive whenever the spacing and
all input `periodSamples` are positive — and empty output on empty input. -/
def dominantCyclesProp (components : List CycleComponent) (s : ℝ) : Prop :=
  (dominantCycles components s).length ≤ 4 ∧
  ((dominantCycles components s).Pairwise fun a b => b.amplitude ≤ a.amplitude) ∧
  (∀ d ∈ dominantCycles components s,
    0 < d.amplitude ∧ numberIsFinite d.periodDays = true ∧
    d.periodDays = d.periodSamples * s) ∧
  (0 < s → (∀ c ∈ components, 0 < c.periodSamples) →
    ∀ d ∈ dominantCycles components s, 0 < d.periodDays) ∧
  dominantCycles [] s = []

/-- C2 (amended): the two-stage selector — first 6 components, attach
`periodDays`, filter, first 4 — yields at most 4 entries, amplitude order
preserved, every entry with `amplitude > 0`; but the filter only tests
finiteness of `periodDays`, not positivity, so positivity of `periodDays`
additionally needs a positive spacing and positive input `periodSamples`
(see the counterexample at spacing `0`). -/
theorem dominantCycles_spec (components : List CycleComponent) (s : ℝ)
    (hs : components.Pairwise fun a b => b.amplitude ≤ a.amplitude) :
    dominantCyclesProp components s := by
  have htake : (components.take 6).Pairwise fun a b => b.amplitude ≤ a.amplitude :=
    List.Pairwise.sublist (List.take_sublist 6 components) hs
  have hmap : (((components.take 6).map fun c =>
      DominantCycle.mk c.index c.amplitude c.phase c.frequency c.periodSamples
        (c.periodSamples * s)).Pairwise fun a b => b.amplitude ≤ a.amplitude) :=
    List.pairwise_map.mpr (htake.imp fun h => h)
  refine ⟨?_, ?_, ?_, ?_, rfl⟩
  · exact List.length_take_le 4 _
  · exact List.Pairwise.sublist (List.take_sublist 4 _)
      (List.Pairwise.sublist (List.filter_sublist _) hmap)
  · intro d hd
    obtain ⟨c, hc, hdc, hpos⟩ := mem_dominantCycles hd
    refine ⟨hpos, rfl, ?_⟩
    rw [hdc]
  · intro hspos hcpos d hd
    obtain ⟨c, hc, hdc, hpos⟩ := mem_dominantCycles hd
    rw [hdc]
    exact mul_pos (hcpos c (List.mem_of_mem_take hc)) hspos

/-- Witness for C2's amended theorem at the empty component list. -/
theorem dominantCycles_spec_witness :
    (([] : List CycleComponent).Pairwise fun a b => b.amplitude ≤ a.amplitude) ∧
    dominantCyclesProp [] 1 :=
  ⟨List.Pairwise.nil, dominantCycles_spec [] 1 List.Pairwise.nil⟩

/-- A concrete component with positive amplitude and period, used to refute
the positivity part of the selection claim at spacing `0`. -/
def cexComponent : CycleComponent :=
  ⟨1, 1 / 2, 1, 0, 2⟩

/-- C2 counterexample: with the (sorted) singleton input `[cexComponent]`
and `averageSampleSpacingDays = 0`, the selector's output entry has
`periodDays = 2 * 0 = 0`, which is finite — so the filter keeps it — but
not positive, refuting "every entry has finite positive periodDays" as
universally stated over every spacing. -/
theorem dominantCycles_positive_periodDays_cex :
    (([cexComponent] : List CycleComponent).Pairwise
      fun a b => b.amplitude ≤ a.amplitude) ∧
    dominantCycles [cexComponent] 0 = [DominantCycle.mk 1 1 0 (1 / 2) 2 (2 * 0)] ∧
    ¬ (0 < (DominantCycle.mk 1 1 0 (1 / 2) 2 ((2 : ℝ) * 0)).periodDays) := by
  refine ⟨List.pairwise_singleton _ _, ?_, by norm_num⟩
  have h6 : ([cexComponent] : List CycleComponent).take 6 = [cexComponent] :=
    List.take_of_length_le (by norm_num)
  rw [dominantCycles, h6, List.map_cons, List.map_nil, List.filter_cons]
  have hb : (numberIsFinite ((cexComponent.periodSamples : ℝ) * 0) &&
      decide (0 < cexComponent.amplitude)) = true := by
    rw [numberIsFinite, Bool.true_and, decide_eq_true_eq]
    norm_num [cexComponent]
  rw [if_pos hb, List.filter_nil]
  norm_num [cexComponent]

/-- A dominant cycle with amplitude exactly `0` (and `periodDays = 1`), a
degenerate input the aggregator's guard does not cover. -/
def cexZeroAmp : DominantCycle :=
  ⟨1, 0, 0, 0, 1, 1⟩

/-- C3 counterexample: on the nonempty list `[cexZeroAmp]`, whose amplitude
sum is exactly `0`, `weightedPeriod` is NOT absent — the source's ternary
tests only the length, so it divides by the zero amplitude sum and returns
a value (`NaN` under JavaScript floats, `some 0` over `ℝ`), refuting
"absent iff empty or zero amplitude sum". -/
theorem weightedPeriod_cex :
    (([cexZeroAmp].map fun c => c.amplitude).sum = 0) ∧
    weightedPeriod [cexZeroAmp] ≠ none := by
  constructor
  · simp [cexZeroAmp]
  · simp [weightedPeriod]

/-- C3 (amended): the aggregator returns "absent" if and only if its input
list is empty (the source guards only emptiness); whenever the amplitude
sum is nonzero, the returned value is exactly
`Σ (periodDays·amplitude) / Σ amplitude`.  The unguarded nonempty zero-sum
case divides by zero instead of being absent (see the counterexample). -/
theorem weightedPeriod_spec (dominant : List DominantCycle) :
    (weightedPeriod dominant = none ↔ dominant = []) ∧
    ((dominant.map fun c => c.amplitude).sum ≠ 0 →
      weightedPeriod dominant =
        some (((dominant.map fun c => c.periodDays * c.amplitude).sum) /
          ((dominant.map fun c => c.amplitude).sum))) := by
  constructor
  · rw [weightedPeriod]
    by_cases h : 0 < dominant.length
    · rw [if_pos h]
      constructor
      · intro hcontra
        exact absurd hcontra (Option.some_ne_none _)
      · intro hnil
        rw [hnil] at h
        simp at h
    · rw [if_neg h]
      have hnil : dominant = [] := List.length_eq_zero.mp (by omega)
      simp [hnil]
  · intro hsum
    have hne : dominant ≠ [] := by
      intro h
      rw [h] at hsum
      simp at hsum
    rw [weightedPeriod, if_pos (List.length_pos.mpr hne)]

/-- Witness for C3's amended theorem at a one-entry list with amplitude `1`
and `periodDays = 2`. -/
theorem weightedPeriod_spec_witness :
    (([⟨1, 1, 0, 0, 2, 2⟩] : List DominantCycle).map fun c => c.amplitude).sum ≠ 0 ∧
    (weightedPeriod [⟨1, 1, 0, 0, 2, 2⟩] = none ↔
      ([⟨1, 1, 0, 0, 2, 2⟩] : List DominantCycle) = []) ∧
    weightedPeriod [⟨1, 1, 0, 0, 2, 2⟩] =
      some (((([⟨1, 1, 0, 0, 2, 2⟩] : List DominantCycle).map
          fun c => c.periodDays * c.amplitude).sum) /
        ((([⟨1, 1, 0, 0, 2, 2⟩] : List DominantCycle).map fun c => c.amplitude).sum)) := by
  have hsum : (([⟨1, 1, 0, 0, 2, 2⟩] : List DominantCycle).map
      fun c => c.amplitude).sum ≠ 0 := by simp
  exact ⟨hsum, (weightedPeriod_spec _).1, (weightedPeriod_spec _).2 hsum⟩

/-- C8: on a nonempty dominant-cycle list with nonnegative amplitudes (the
data-model invariant for amplitudes) whose amplitude sum is nonzero, the
aggregator's value lies between any lower bound `m` and any upper bound `M`
of the entries' `periodDays` — in particular between their minimum and
maximum. -/
theorem weightedPeriod_between (dominant : List DominantCycle) (m M v : ℝ)
    (hne : dominant ≠ [])
    (hnn : ∀ d ∈ dominant, 0 ≤ d.amplitude)
    (hsum : (dominant.map fun c => c.amplitude).sum ≠ 0)
    (hm : ∀ d ∈ dominant, m ≤ d.periodDays)
    (hM : ∀ d ∈ dominant, d.periodDays ≤ M)
    (hv : weightedPeriod dominant = some v) :
    m ≤ v ∧ v ≤ M := by
  have hW0 : 0 ≤ (dominant.map fun c => c.amplitude).sum := by
    apply List.sum_nonneg
    intro x hx
    obtain ⟨d, hd, rfl⟩ := List.mem_map.mp hx
    exact hnn d hd
  have hWpos : 0 < (dominant.map fun c => c.amplitude).sum :=
    lt_of_le_of_ne hW0 (Ne.symm hsum)
  rw [weightedPeriod, if_pos (List.length_pos.mpr hne)] at hv
  have hv' : v = ((dominant.map fun c => c.periodDays * c.amplitude).sum) /
      ((dominant.map fun c => c.amplitude).sum) := (Option.some_inj.mp hv).symm
  have hlow : (dominant.map fun c => m * c.amplitude).sum ≤
      (dominant.map fun c => c.periodDays * c.amplitude).sum :=
    List.sum_le_sum fun d hd => mul_le_mul_of_nonneg_right (hm d hd) (hnn d hd)
  have hhigh : (dominant.map fun c => c.periodDays * c.amplitude).sum ≤
      (dominant.map fun c => M * c.amplitude).sum :=
    List.sum_le_sum fun d hd => mul_le_mul_of_nonneg_right (hM d hd) (hnn d hd)
  have hmW : (dominant.map fun c => m * c.amplitude).sum =
      m * (dominant.map fun c => c.amplitude).sum := List.sum_map_mul_left _ _ _
  have hMW : (dominant.map fun c => M * c.amplitude).sum =
      M * (dominant.map fun c => c.amplitude).sum := List.sum_map_mul_left _ _ _
  constructor
  · rw [hv', le_div_iff₀ hWpos]
    rw [hmW] at hlow
    linarith
  · rw [hv', div_le_iff₀ hWpos]
    rw [hMW] at hhigh
    linarith

/-- Witness for C8 at a one-entry list with amplitude `1`, `periodDays = 2`,
bounds `m = M = 2` and value `2`. -/
theorem weightedPeriod_between_witness :
    ([⟨3, 1, 0, 0, 2, 2⟩] : List DominantCycle) ≠ [] ∧
    (∀ d ∈ ([⟨3, 1, 0, 0, 2, 2⟩] : List DominantCycle), 0 ≤ d.amplitude) ∧
    ((([⟨3, 1, 0, 0, 2, 2⟩] : List DominantCycle).map fun c => c.amplitude).sum ≠ 0) ∧
    (∀ d ∈ ([⟨3, 1, 0, 0, 2, 2⟩] : List DominantCycle), (2 : ℝ) ≤ d.periodDays) ∧
    (∀ d ∈ ([⟨3, 1, 0, 0, 2, 2⟩] : List DominantCycle), d.periodDays ≤ (2 : ℝ)) ∧
    weightedPeriod [⟨3, 1, 0, 0, 2, 2⟩] = some 2 ∧
    ((2 : ℝ) ≤ 2 ∧ (2 : ℝ) ≤ 2) := by
  have h1 : ([⟨3, 1, 0, 0, 2, 2⟩] : List DominantCycle) ≠ [] := by simp
  have h2 : ∀ d ∈ ([⟨3, 1, 0, 0, 2, 2⟩] : List DominantCycle), 0 ≤ d.amplitude := by
    intro d hd
    rw [List.mem_singleton.mp hd]
    norm_num
  have h3 : ((([⟨3, 1, 0, 0, 2, 2⟩] : List DominantCycle).map
      fun c => c.amplitude).sum ≠ 0) := by simp
  have h4 : ∀ d ∈ ([⟨3, 1, 0, 0, 2, 2⟩] : List DominantCycle), (2 : ℝ) ≤ d.periodDays := by
    intro d hd
    rw [List.mem_singleton.mp hd]
  have h5 : ∀ d ∈ ([⟨3, 1, 0, 0, 2, 2⟩] : List DominantCycle), d.periodDays ≤ (2 : ℝ) := by
    intro d hd
    rw [List.mem_singleton.mp hd]
  have hv : weightedPeriod [⟨3, 1, 0, 0, 2, 2⟩] = some 2 := by
    rw [weightedPeriod, if_pos (by norm_num)]
    norm_num
  exact ⟨h1, h2, h3, h4, h5, hv,
    weightedPeriod_between _ 2 2 2 h1 h2 h3 h4 h5 hv⟩

/-- C6: the summary generator is pure string templating over its inputs —
on an empty dominant-cycle list it returns the fixed insufficient-data
message prefixed by the asset label, independent of the range label; on a
one-entry list it renders the primary cycle's period to one decimal and its
amplitude to two decimals plus the fixed "no prominent secondary cycle"
sentence; with two or more entries it renders the second entry's period to
one decimal instead.  Being a function of its arguments, it mutates
nothing. -/
theorem summarizeCycles_spec :
    (∀ symbol range : String,
      summarizeCycles symbol [] range =
        symbol ++ " এর জন্য বাছাই করা সময় সীমায় পর্যাপ্ত তথ্য পাওয়া যায়নি।") ∧
    (∀ symbol range range' : String,
      summarizeCycles symbol [] range = summarizeCycles symbol [] range') ∧
    (∀ (symbol range : String) (p : DominantCycle),
      summarizeCycles symbol [p] range =
        symbol ++ " এর " ++ range ++ " ডেটায় " ++
          ("মূল চক্র " ++ toFixed 1 p.periodDays ++
            " দিনের কাছাকাছি, যার শক্তি " ++ toFixed 2 p.amplitude ++ "।") ++ " " ++
          "দ্বিতীয় শক্তিশালী চক্র তেমন প্রকট নয়।" ++
          " এই তথ্যের ভিত্তিতে আপনার এন্ট্রি ও এক্সিট পরিকল্পনা করুন।") ∧
    (∀ (symbol range : String) (p q : DominantCycle) (rest : List DominantCycle),
      summarizeCycles symbol (p :: q :: rest) range =
        symbol ++ " এর " ++ range ++ " ডেটায় " ++
          ("মূল চক্র " ++ toFixed 1 p.periodDays ++
            " দিনের কাছাকাছি, যার শক্তি " ++ toFixed 2 p.amplitude ++ "।") ++ " " ++
          ("দ্বিতীয় চক্র হিসেবে " ++ toFixed 1 q.periodDays ++
            " দিনের একটি পুনরাবৃত্তি পাওয়া গেছে।") ++
          " এই তথ্যের ভিত্তিতে আপনার এন্ট্রি ও এক্সিট পরিকল্পনা করুন।") :=
  ⟨fun _ _ => rfl, fun _ _ _ => rfl, fun _ _ _ => rfl, fun _ _ _ _ _ => rfl⟩

/-- C9: the core pipeline is deterministic and stateless — two invocations
of `runAnalysis` on the same samples, spacing, asset label and range label
are equal, and each invocation equals the record of the independent pure
component computations, so no state is shared between the stages or between
calls. -/
theorem runAnalysis_deterministic (closes : List CandlePoint)
    (samplePeriodDays : ℝ) (symbol range : String) :
    runAnalysis closes samplePeriodDays symbol range =
      runAnalysis closes samplePeriodDays symbol range ∧
    runAnalysis closes samplePeriodDays symbol range =
      { trendSlope := computeTrendSlope closes
        dominantCycles :=
          dominantCycles (computeCycleComponents (closes.map fun point => point.close))
            samplePeriodDays
        averageCycleLengthDays :=
          weightedPeriod
            (dominantCycles (computeCycleComponents (closes.map fun point => point.close))
              samplePeriodDays)
        summary :=
          summarizeCycles symbol
            (dominantCycles (computeCycleComponents (closes.map fun point => point.close))
              samplePeriodDays) range } :=
  ⟨rfl, rfl⟩

end
